import Mathlib

/-!
# FreeFoil Converter — verification of the geometry core

A shallow embedding of the airfoil converter's geometry core: the
coordinate-listing parser (`parseDatFile` with its line matcher compiled
from `coordinateRegex`), the chord/thickness transformer
(`transformPoints`), the exporters (`generateCSV`, `generateDXF`) and the
viewport projection computed by the `AirfoilViewer` render effect
(`project`).  Real numbers of the program are modelled by `ℚ` (exact
arithmetic); JavaScript exceptions by `Except`; the viewer's silent
early return by an `Option` inside the success channel.
-/

/-- A planar point, as in `types.ts`. -/
structure Point where
  x : ℚ
  y : ℚ
deriving DecidableEq, Repr

/-- Parsed airfoil data, as in `types.ts`: name, normalized points, and
the normalized maximum thickness (the field is called `originalThickness`
in the source). -/
structure AirfoilData where
  name : String
  points : List Point
  originalThickness : ℚ
deriving DecidableEq, Repr

/-- The characters matched by the regex class `\s` (ASCII part), used by
`coordinateRegex`. -/
def isJsWhitespace (c : Char) : Bool :=
  c = ' ' || c = '\t' || c = '\n' || c = '\r' || c = '\x0b' || c = '\x0c'

/-- The optional sign `[+-]?` of `coordinateRegex`: consume a leading
`+` or `-` if present, returning the consumed characters and the rest. -/
def matchSign (cs : List Char) : List Char × List Char :=
  match cs with
  | c :: r => if c = '+' ∨ c = '-' then ([c], r) else ([], cs)
  | [] => ([], [])

/-- The mantissa `\d*\.?\d+` of `coordinateRegex`: an optional digit
run, an optional decimal point, and a final digit run, at least one
digit in total; a decimal point not followed by a digit is left
unconsumed (the regex backtracks on `\.?`).  Returns the consumed
characters and the rest, or `none` when the pattern cannot match. -/
def matchMantissa (cs : List Char) : Option (List Char × List Char) :=
  let ip := cs.takeWhile Char.isDigit
  let r1 := cs.dropWhile Char.isDigit
  if r1.head? = some '.' then
    let r2 := r1.tail
    let fp := r2.takeWhile Char.isDigit
    if fp = [] then (if ip = [] then none else some (ip, r1))
    else some (ip ++ '.' :: fp, r2.dropWhile Char.isDigit)
  else if ip = [] then none else some (ip, r1)

/-- The optional exponent `(?:[eE][+-]?\d+)?` of `coordinateRegex`:
consumed only when an `e`/`E` is followed by an optional sign and at
least one digit; otherwise nothing is consumed (the regex backtracks on
the optional group). -/
def matchExp (cs : List Char) : List Char × List Char :=
  match cs with
  | c :: r =>
    if c = 'e' ∨ c = 'E' then
      let s := matchSign r
      let ds := s.2.takeWhile Char.isDigit
      if ds = [] then ([], cs) else (c :: (s.1 ++ ds), s.2.dropWhile Char.isDigit)
    else ([], cs)
  | [] => ([], [])

/-- One capture group `([+-]?\d*\.?\d+(?:[eE][+-]?\d+)?)` of
`coordinateRegex`: sign, mantissa, optional exponent. -/
def matchNumber (cs : List Char) : Option (List Char × List Char) :=
  let s := matchSign cs
  match matchMantissa s.2 with
  | none => none
  | some m =>
    let e := matchExp m.2
    some (s.1 ++ (m.1 ++ e.1), e.2)

/-- The whole `coordinateRegex`
`^\s*(num)\s+(num)\s*$`: leading whitespace, a first number, mandatory
whitespace, a second number, trailing whitespace, end of line.  Returns
the two capture groups on success. -/
def matchCoordLine (cs : List Char) : Option (List Char × List Char) :=
  let t0 := cs.dropWhile isJsWhitespace
  match matchNumber t0 with
  | none => none
  | some g1 =>
    let w := g1.2.takeWhile isJsWhitespace
    let t1 := g1.2.dropWhile isJsWhitespace
    if w = [] then none
    else
      match matchNumber t1 with
      | none => none
      | some g2 =>
        if g2.2.dropWhile isJsWhitespace = [] then some (g1.1, g2.1) else none

/-- The value of a digit run, most significant first. -/
def digitsVal (l : List Char) : ℕ :=
  l.foldl (fun a c => a * 10 + (c.toNat - 48)) 0

/-- `parseFloat` on a capture group of `coordinateRegex` (idealised to
exact rational arithmetic): sign times mantissa times ten to the signed
exponent. -/
def parseFloatQ (cs : List Char) : ℚ :=
  let s := matchSign cs
  let ip := s.2.takeWhile Char.isDigit
  let r1 := s.2.dropWhile Char.isDigit
  let fr : List Char × List Char :=
    if r1.head? = some '.' then (r1.tail.takeWhile Char.isDigit, r1.tail.dropWhile Char.isDigit)
    else ([], r1)
  let mant : ℚ := (digitsVal ip : ℚ) + (digitsVal fr.1 : ℚ) / (10 : ℚ) ^ fr.1.length
  let e : ℤ :=
    match fr.2 with
    | c :: r =>
      if c = 'e' ∨ c = 'E' then
        let es := matchSign r
        let ed := es.2.takeWhile Char.isDigit
        if es.1 = ['-'] then -(digitsVal ed : ℤ) else (digitsVal ed : ℤ)
      else 0
    | [] => 0
  let v := mant * (10 : ℚ) ^ e
  if s.1 = ['-'] then -v else v

/-- `line.match(coordinateRegex)` followed by `parseFloat` on the two
capture groups: the point a line contributes, if it matches. -/
def lineToPoint (l : String) : Option Point :=
  (matchCoordLine l.data).map fun g => ⟨parseFloatQ g.1, parseFloatQ g.2⟩

/-- `content.split('\n').map(l => l.trim()).filter(l => l.length > 0)`. -/
def splitLines (content : String) : List String :=
  ((content.splitOn "\n").map String.trim).filter fun l => !l.isEmpty

/-- Whether `pat` is an initial segment of the second list. -/
def startsWithCh : List Char → List Char → Bool
  | [], _ => true
  | _ :: _, [] => false
  | p :: ps, c :: cs => p == c && startsWithCh ps cs

/-- Remove the first occurrence of `pat` from a character list (the
behaviour of JavaScript `String.replace` with a string pattern and an
empty replacement). -/
def removeSubOnce (pat : List Char) : List Char → List Char
  | [] => []
  | c :: cs =>
    if startsWithCh pat (c :: cs) then List.drop pat.length (c :: cs)
    else c :: removeSubOnce pat cs

/-- `fileName.replace('.dat', '')`: the default airfoil name. -/
def replaceDatOnce (fileName : String) : String :=
  ⟨removeSubOnce ".dat".data fileName.data⟩

/-- The line scan of `parseDatFile`: walk the trimmed non-empty lines
with their index, collecting a point for every line matching
`coordinateRegex`; a non-matching line replaces the name only when it is
the first line and no header has been claimed yet. -/
def scanLines : List String → ℕ → String → Bool → List Point → String × List Point
  | [], _, name, _, pts => (name, pts)
  | l :: ls, i, name, headerFound, pts =>
    match lineToPoint l with
    | some p => scanLines ls (i + 1) name headerFound (pts ++ [p])
    | none =>
      if i = 0 ∧ headerFound = false then scanLines ls (i + 1) l true pts
      else scanLines ls (i + 1) name headerFound pts

/-- Minimum of a list of rationals (`Math.min(...)`); `0` on the empty
list, which `parseDatFile` never reaches. -/
def listMin : List ℚ → ℚ
  | [] => 0
  | x :: xs => xs.foldl min x

/-- Maximum of a list of rationals (`Math.max(...)`); `0` on the empty
list, which `parseDatFile` never reaches. -/
def listMax : List ℚ → ℚ
  | [] => 0
  | x :: xs => xs.foldl max x

/-- `parseDatFile` from `airfoilUtils`: split and trim the lines, scan
them for coordinates and an optional header name, fail when fewer than 3
points were recognized, then normalize by the x-span and record the
normalized thickness. -/
def parseDatFile (content : String) (fileName : String) : Except String AirfoilData :=
  let lines := splitLines content
  let scanned := scanLines lines 0 (replaceDatOnce fileName) false []
  let name := scanned.1
  let points := scanned.2
  if points.length < 3 then
    Except.error "Invalid .dat file: Not enough coordinate points found."
  else
    let maxY := listMax (points.map Point.y)
    let minY := listMin (points.map Point.y)
    let originalThickness := maxY - minY
    let minX := listMin (points.map Point.x)
    let maxX := listMax (points.map Point.x)
    let rawChord := maxX - minX
    let normalizedPoints := points.map fun p => ⟨(p.x - minX) / rawChord, p.y / rawChord⟩
    let normalizedThickness := originalThickness / rawChord
    Except.ok ⟨name, normalizedPoints, normalizedThickness⟩

/-- The points recognized in an input text, in encounter order. -/
def recognizedPoints (content : String) : List Point :=
  (splitLines content).filterMap lineToPoint

/-- `transformPoints` from `airfoilUtils`: scale x by the target chord
and y by the thickness correction times the target chord; the y scale
falls back to `1` when the recorded thickness is not positive. -/
def transformPoints (data : AirfoilData) (targetChord : ℚ)
    (targetThicknessPercent : ℚ) : List Point :=
  let currentMaxThickness := data.originalThickness
  let targetMaxThicknessRatio := targetThicknessPercent / 100
  let yScale := if currentMaxThickness > 0
    then targetMaxThicknessRatio / currentMaxThickness
    else 1
  data.points.map fun p => ⟨p.x * targetChord, p.y * yScale * targetChord⟩

/-- Left-pad a string with zeros to width 6. -/
def padSix (s : String) : String :=
  if s.length < 6 then String.mk (List.replicate (6 - s.length) '0') ++ s else s

/-- Render a non-negative rational with exactly 6 fractional digits,
rounding half away from zero on the magnitude (the ECMA `toFixed`
rounding rule). -/
def fixed6Mag (m : ℚ) : String :=
  let n : ℕ := (Rat.floor (m * 1000000 + 1/2)).toNat
  Nat.repr (n / 1000000) ++ "." ++ padSix (Nat.repr (n % 1000000))

/-- JavaScript `Number.prototype.toFixed(6)` on an (idealised) rational:
a minus sign for negative inputs, then the magnitude with 6 fractional
digits. -/
def toFixed6 (x : ℚ) : String :=
  if x < 0 then "-" ++ fixed6Mag (-x) else fixed6Mag x

/-- Concatenation of a list of strings. -/
def concatStrs (l : List String) : String :=
  l.foldr (fun a b => a ++ b) ""

/-- `generateCSV` from `airfoilUtils`: a header line, then one line per
point, accumulated by appending to the output string. -/
def generateCSV (points : List Point) : String :=
  points.foldl
    (fun output p => output ++ (toFixed6 p.x ++ "," ++ toFixed6 p.y ++ ",0.000000\n"))
    "X,Y,Z\n"

/-- `generateDXF` from `airfoilUtils`: SECTION/ENTITIES header, one
POLYLINE on layer 0 with flag 66=1, one VERTEX per point (10=x, 20=y,
30=0.0), then SEQEND, ENDSEC, EOF. -/
def generateDXF (points : List Point) : String :=
  let dxf := "0\nSECTION\n2\nENTITIES\n"
  let dxf := dxf ++ "0\nPOLYLINE\n8\n0\n66\n1\n"
  let dxf := points.foldl
    (fun dxf p =>
      dxf ++ ("0\nVERTEX\n8\n0\n" ++ ("10\n" ++ toFixed6 p.x ++ "\n") ++
        ("20\n" ++ toFixed6 p.y ++ "\n") ++ "30\n0.0\n"))
    dxf
  dxf ++ "0\nSEQEND\n" ++ "0\nENDSEC\n" ++ "0\nEOF\n"

/-- The vector-exchange writer as the claim describes it, with the z
group code value also formatted to 6 fractional digits; kept for
comparison with the implemented `generateDXF`. -/
def generateDXFClaim (points : List Point) : String :=
  let dxf := "0\nSECTION\n2\nENTITIES\n"
  let dxf := dxf ++ "0\nPOLYLINE\n8\n0\n66\n1\n"
  let dxf := points.foldl
    (fun dxf p =>
      dxf ++ ("0\nVERTEX\n8\n0\n" ++ ("10\n" ++ toFixed6 p.x ++ "\n") ++
        ("20\n" ++ toFixed6 p.y ++ "\n") ++ ("30\n" ++ toFixed6 0 ++ "\n")))
    dxf
  dxf ++ "0\nSEQEND\n" ++ "0\nENDSEC\n" ++ "0\nEOF\n"

/-- A display viewport: the container's pixel extents seen by
`AirfoilViewer`. -/
structure ViewportSpec where
  width : ℚ
  height : ℚ
deriving DecidableEq, Repr

/-- The scale data computed by the `AirfoilViewer` render effect: the
padded x and y domains and the pixel ranges the two `d3.scaleLinear`
calls map them onto. -/
structure ProjectionResult where
  xDomain : ℚ × ℚ
  yDomain : ℚ × ℚ
  xRange : ℚ × ℚ
  yRange : ℚ × ℚ
deriving DecidableEq, Repr

/-- `d3.scaleLinear().domain(dom).range(rng)` applied to `v`: linear
interpolation, with d3's constant-midpoint behaviour on a zero-width
domain. -/
def scaleLinear (dom rng : ℚ × ℚ) (v : ℚ) : ℚ :=
  if dom.2 - dom.1 = 0 then rng.1 + (1/2) * (rng.2 - rng.1)
  else rng.1 + ((v - dom.1) / (dom.2 - dom.1)) * (rng.2 - rng.1)

/-- The projection set up by the `AirfoilViewer` render effect: the
effect returns early (drawing nothing, raising nothing) when there are
no points or the measured width is zero; otherwise it subtracts the
fixed margins (top 40, right 40, bottom 40, left 50), pads the data
extents (10% horizontal, 50% of the thin-shape-guarded height vertical)
and sets up the two linear scales.  The `Except` layer carries thrown
exceptions — the effect never throws — and the `Option` layer is the
early return. -/
def project (points : List Point) (viewport : ViewportSpec) :
    Except String (Option ProjectionResult) :=
  if points.length = 0 ∨ viewport.width = 0 then Except.ok none
  else
    let width := viewport.width - 50 - 40
    let height := viewport.height - 40 - 40
    let xExtent := (listMin (points.map Point.x), listMax (points.map Point.x))
    let yExtent := (listMin (points.map Point.y), listMax (points.map Point.y))
    let dataWidth := xExtent.2 - xExtent.1
    let dataHeight := yExtent.2 - yExtent.1
    let xPad := dataWidth * (1/10)
    let minHeight := dataWidth * (3/10)
    let effectiveHeight := max dataHeight minHeight
    let yPad := effectiveHeight * (1/2)
    let xDomain := (xExtent.1 - xPad, xExtent.2 + xPad)
    let yDomain := (yExtent.1 - yPad, yExtent.2 + yPad)
    Except.ok (some ⟨xDomain, yDomain, (0, width), (height, 0)⟩)

/-- Every character of the list is a decimal digit. -/
def AllDigits (l : List Char) : Prop := ∀ c ∈ l, c.isDigit = true

/-- Every character of the list is regex whitespace. -/
def AllWs (l : List Char) : Prop := ∀ c ∈ l, isJsWhitespace c = true

/-- An optional sign: empty, `+`, or `-`. -/
def IsSignOpt (sg : List Char) : Prop := sg = [] ∨ sg = ['+'] ∨ sg = ['-']

/-- An optional decimal fraction: empty, or a decimal point followed by
a non-empty digit run. -/
def IsFracOpt (fp : List Char) : Prop :=
  fp = [] ∨ ∃ ds, ds ≠ [] ∧ AllDigits ds ∧ fp = '.' :: ds

/-- An optional exponent: empty, or `e`/`E`, an optional sign, and a
non-empty digit run. -/
def IsExpOpt (ex : List Char) : Prop :=
  ex = [] ∨ ∃ e sg ds, (e = 'e' ∨ e = 'E') ∧ IsSignOpt sg ∧ ds ≠ [] ∧
    AllDigits ds ∧ ex = e :: (sg ++ ds)

/-- The number shape actually accepted by `coordinateRegex`
(`[+-]?\d*\.?\d+(?:[eE][+-]?\d+)?`): optional sign, a possibly empty
integer digit run, an optional fraction, an optional exponent, with at
least one digit in integer-or-fraction position — so `.5` is accepted
even though it has no integer digits. -/
def IsNumberStr (s : List Char) : Prop :=
  ∃ sg ip fp ex, IsSignOpt sg ∧ AllDigits ip ∧ IsFracOpt fp ∧ IsExpOpt ex ∧
    (ip ≠ [] ∨ fp ≠ []) ∧ s = sg ++ ip ++ fp ++ ex

/-- A full coordinate line as `coordinateRegex` accepts it: optional
leading whitespace, a number, mandatory whitespace, a number, optional
trailing whitespace, nothing else. -/
def IsCoordLine (s : List Char) : Prop :=
  ∃ w0 n1 w n2 w1, AllWs w0 ∧ IsNumberStr n1 ∧ w ≠ [] ∧ AllWs w ∧
    IsNumberStr n2 ∧ AllWs w1 ∧ s = w0 ++ n1 ++ w ++ n2 ++ w1

/-- The number shape as the claim words it: an optional sign, a
(non-empty) digit run, an optional decimal fraction, an optional
exponent — this shape rejects `.5`. -/
def IsNumberStrClaim (s : List Char) : Prop :=
  ∃ sg ip fp ex, IsSignOpt sg ∧ ip ≠ [] ∧ AllDigits ip ∧ IsFracOpt fp ∧
    IsExpOpt ex ∧ s = sg ++ ip ++ fp ++ ex

/-- A (trimmed) coordinate line as the claim words it: exactly two
claim-shaped numbers separated by whitespace with no trailing
content. -/
def IsCoordLineClaim (s : List Char) : Prop :=
  ∃ n1 w n2, IsNumberStrClaim n1 ∧ w ≠ [] ∧ AllWs w ∧ IsNumberStrClaim n2 ∧
    s = n1 ++ w ++ n2

lemma ws_char_facts {c : Char} (h : isJsWhitespace c = true) :
    c.isDigit = false ∧ c ≠ '.' ∧ c ≠ 'e' ∧ c ≠ 'E' ∧ c ≠ '+' ∧ c ≠ '-' := by
  simp only [isJsWhitespace, Bool.or_eq_true, decide_eq_true_eq] at h
  rcases h with ((((h | h) | h) | h) | h) | h <;> subst h <;> exact ⟨by decide, by decide,
    by decide, by decide, by decide, by decide⟩

lemma digit_char_facts {c : Char} (h : c.isDigit = true) :
    isJsWhitespace c = false ∧ c ≠ '.' ∧ c ≠ 'e' ∧ c ≠ 'E' ∧ c ≠ '+' ∧ c ≠ '-' := by
  refine ⟨?_, ?_, ?_, ?_, ?_, ?_⟩ <;>
    first
    | (rintro rfl; exact absurd h (by decide))
    | (by_cases hw : isJsWhitespace c = true
       · exact absurd h (by simpa using (ws_char_facts hw).1)
       · simpa using hw)

lemma takeWhile_all_append {p : Char → Bool} {a : List Char} (b : List Char)
    (ha : ∀ c ∈ a, p c = true) (hb : ∀ c, b.head? = some c → p c = false) :
    (a ++ b).takeWhile p = a ∧ (a ++ b).dropWhile p = b := by
  induction a with
  | nil =>
    simp only [List.nil_append]
    cases b with
    | nil => simp
    | cons c t =>
      have hc := hb c rfl
      simp [List.takeWhile_cons, List.dropWhile_cons, hc]
  | cons c a ih =>
    have hc := ha c (by simp)
    have ih' := ih fun d hd => ha d (by simp [hd])
    simp [List.takeWhile_cons, List.dropWhile_cons, hc, ih'.1, ih'.2]

lemma head?_dropWhile {p : Char → Bool} :
    ∀ (l : List Char) (c : Char), (l.dropWhile p).head? = some c → p c = false := by
  intro l
  induction l with
  | nil => intro c h; simp at h
  | cons d t ih =>
    intro c h
    by_cases hd : p d = true
    · rw [List.dropWhile_cons, if_pos hd] at h
      exact ih c h
    · rw [List.dropWhile_cons, if_neg hd] at h
      simp only [List.head?_cons, Option.some.injEq] at h
      subst h
      simpa using hd

lemma all_takeWhile {p : Char → Bool} (l : List Char) :
    ∀ c ∈ l.takeWhile p, p c = true := fun _ hc => List.mem_takeWhile_imp hc

lemma dropWhile_all_eq_nil {p : Char → Bool} {l : List Char}
    (h : ∀ c ∈ l, p c = true) : l.dropWhile p = [] :=
  List.dropWhile_eq_nil_iff.mpr h

lemma matchSign_split (cs : List Char) :
    IsSignOpt (matchSign cs).1 ∧ cs = (matchSign cs).1 ++ (matchSign cs).2 := by
  cases cs with
  | nil => exact ⟨Or.inl rfl, rfl⟩
  | cons c r =>
    by_cases h : c = '+' ∨ c = '-'
    · rw [matchSign, if_pos h]
      rcases h with h | h <;> subst h
      · exact ⟨Or.inr (Or.inl rfl), rfl⟩
      · exact ⟨Or.inr (Or.inr rfl), rfl⟩
    · rw [matchSign, if_neg h]
      exact ⟨Or.inl rfl, rfl⟩

lemma matchSign_complete {sg : List Char} (hsg : IsSignOpt sg) (r : List Char)
    (hr : ∀ c, r.head? = some c → c ≠ '+' ∧ c ≠ '-') :
    matchSign (sg ++ r) = (sg, r) := by
  rcases hsg with h | h | h <;> subst h
  · cases r with
    | nil => rfl
    | cons c t =>
      have := hr c rfl
      rw [List.nil_append, matchSign, if_neg (by tauto)]
  · rw [List.cons_append, List.nil_append, matchSign, if_pos (Or.inl rfl)]
  · rw [List.cons_append, List.nil_append, matchSign, if_pos (Or.inr rfl)]

lemma matchMantissa_sound {cs m r : List Char} (h : matchMantissa cs = some (m, r)) :
    cs = m ++ r ∧ ∃ ip fp, m = ip ++ fp ∧ AllDigits ip ∧ IsFracOpt fp ∧
      (ip ≠ [] ∨ fp ≠ []) := by
  have hsplit : cs = cs.takeWhile Char.isDigit ++ cs.dropWhile Char.isDigit :=
    (List.takeWhile_append_dropWhile _ _).symm
  simp only [matchMantissa] at h
  by_cases hdot : (cs.dropWhile Char.isDigit).head? = some '.'
  · rw [if_pos hdot] at h
    by_cases hfp : (cs.dropWhile Char.isDigit).tail.takeWhile Char.isDigit = []
    · rw [if_pos hfp] at h
      by_cases hip : cs.takeWhile Char.isDigit = []
      · rw [if_pos hip] at h; cases h
      · rw [if_neg hip] at h
        simp only [Option.some.injEq, Prod.mk.injEq] at h
        refine ⟨?_, cs.takeWhile Char.isDigit, [], by simp [h.1], all_takeWhile _,
          Or.inl rfl, Or.inl hip⟩
        rw [← h.1, ← h.2]; exact hsplit
    · rw [if_neg hfp] at h
      simp only [Option.some.injEq, Prod.mk.injEq] at h
      have htl : cs.dropWhile Char.isDigit = '.' :: (cs.dropWhile Char.isDigit).tail := by
        cases hh : cs.dropWhile Char.isDigit with
        | nil => rw [hh] at hdot; cases hdot
        | cons a t =>
          rw [hh] at hdot
          simp only [List.head?_cons, Option.some.injEq] at hdot
          simp [hdot]
      refine ⟨?_, cs.takeWhile Char.isDigit,
        '.' :: (cs.dropWhile Char.isDigit).tail.takeWhile Char.isDigit,
        h.1.symm, all_takeWhile _, Or.inr ⟨_, hfp, all_takeWhile _, rfl⟩,
        Or.inr (by simp)⟩
      rw [← h.1, ← h.2]
      conv_lhs => rw [hsplit, htl, ← List.takeWhile_append_dropWhile Char.isDigit
        (cs.dropWhile Char.isDigit).tail]
      simp
  · rw [if_neg hdot] at h
    by_cases hip : cs.takeWhile Char.isDigit = []
    · rw [if_pos hip] at h; cases h
    · rw [if_neg hip] at h
      simp only [Option.some.injEq, Prod.mk.injEq] at h
      refine ⟨?_, cs.takeWhile Char.isDigit, [], by simp [h.1], all_takeWhile _,
        Or.inl rfl, Or.inl hip⟩
      rw [← h.1, ← h.2]; exact hsplit

lemma matchMantissa_complete {ip fp : List Char} (r : List Char)
    (hip : AllDigits ip) (hfp : IsFracOpt fp) (hne : ip ≠ [] ∨ fp ≠ [])
    (hr : ∀ c, r.head? = some c → c.isDigit = false ∧ c ≠ '.') :
    matchMantissa (ip ++ fp ++ r) = some (ip ++ fp, r) := by
  rcases hfp with hfp | ⟨ds, hds, hdsd, hfp⟩
  · subst hfp
    have hipne : ip ≠ [] := by
      rcases hne with h | h
      · exact h
      · exact absurd rfl h
    have key := takeWhile_all_append (p := Char.isDigit) r hip fun c hc => (hr c hc).1
    simp only [List.append_nil] at key ⊢
    have hdot : ¬r.head? = some '.' := by
      intro hc
      cases r with
      | nil => cases hc
      | cons c t =>
        simp only [List.head?_cons, Option.some.injEq] at hc
        exact (hr c rfl).2 hc
    simp only [matchMantissa, key.1, key.2]
    rw [if_neg hdot, if_neg hipne]
  · subst hfp
    have harr : ip ++ '.' :: ds ++ r = ip ++ ('.' :: (ds ++ r)) := by simp
    have key : (ip ++ ('.' :: (ds ++ r))).takeWhile Char.isDigit = ip ∧
        (ip ++ ('.' :: (ds ++ r))).dropWhile Char.isDigit = '.' :: (ds ++ r) :=
      takeWhile_all_append _ hip fun c hc => by
        simp only [List.head?_cons, Option.some.injEq] at hc
        subst hc; decide
    have key2 := takeWhile_all_append (p := Char.isDigit) r hdsd fun c hc => (hr c hc).1
    rw [harr]
    simp only [matchMantissa, key.1, key.2, List.head?_cons, List.tail_cons]
    rw [if_pos trivial]
    simp only [key2.1, key2.2, if_neg hds]

lemma matchExp_sound (cs : List Char) :
    IsExpOpt (matchExp cs).1 ∧ cs = (matchExp cs).1 ++ (matchExp cs).2 := by
  cases cs with
  | nil => exact ⟨Or.inl rfl, rfl⟩
  | cons c r =>
    by_cases hc : c = 'e' ∨ c = 'E'
    · simp only [matchExp, if_pos hc]
      by_cases hds : (matchSign r).2.takeWhile Char.isDigit = []
      · rw [if_pos hds]
        exact ⟨Or.inl rfl, rfl⟩
      · rw [if_neg hds]
        refine ⟨Or.inr ⟨c, (matchSign r).1, (matchSign r).2.takeWhile Char.isDigit,
          hc, (matchSign_split r).1, hds, all_takeWhile _, rfl⟩, ?_⟩
        have h1 := (matchSign_split r).2
        have h2 : (matchSign r).2 =
            (matchSign r).2.takeWhile Char.isDigit ++
              (matchSign r).2.dropWhile Char.isDigit :=
          (List.takeWhile_append_dropWhile _ _).symm
        calc c :: r
            = c :: ((matchSign r).1 ++ ((matchSign r).2.takeWhile Char.isDigit ++
                (matchSign r).2.dropWhile Char.isDigit)) := by rw [← h2, ← h1]
          _ = (c :: ((matchSign r).1 ++ (matchSign r).2.takeWhile Char.isDigit)) ++
                (matchSign r).2.dropWhile Char.isDigit := by simp
    · simp only [matchExp, if_neg hc]
      exact ⟨Or.inl rfl, rfl⟩

lemma matchExp_complete_nil (r : List Char)
    (hr : ∀ c, r.head? = some c → c ≠ 'e' ∧ c ≠ 'E') : matchExp r = ([], r) := by
  cases r with
  | nil => rfl
  | cons c t =>
    have hc := hr c rfl
    simp only [matchExp, if_neg (by tauto : ¬(c = 'e' ∨ c = 'E'))]

lemma matchExp_complete_cons (e : Char) (sg ds r : List Char)
    (he : e = 'e' ∨ e = 'E') (hsg : IsSignOpt sg) (hds : ds ≠ [])
    (hdsd : AllDigits ds)
    (hr : ∀ c, r.head? = some c → c.isDigit = false) :
    matchExp (e :: (sg ++ ds) ++ r) = (e :: (sg ++ ds), r) := by
  have hsign : matchSign (sg ++ (ds ++ r)) = (sg, ds ++ r) := by
    refine matchSign_complete hsg _ fun c hc => ?_
    cases ds with
    | nil => exact absurd rfl hds
    | cons d t =>
      simp only [List.cons_append, List.head?_cons, Option.some.injEq] at hc
      subst hc
      have := digit_char_facts (hdsd d (by simp))
      exact ⟨this.2.2.2.2.1, this.2.2.2.2.2⟩
  have key := takeWhile_all_append (p := Char.isDigit) r hdsd fun c hc => hr c hc
  simp only [List.cons_append, List.append_assoc]
  simp only [matchExp, if_pos he, hsign, key.1, key.2, if_neg hds]

lemma matchNumber_sound {cs : List Char} {g r : List Char}
    (h : matchNumber cs = some (g, r)) : IsNumberStr g ∧ cs = g ++ r := by
  simp only [matchNumber] at h
  split at h
  case _ heq => cases h
  case _ m heq =>
    simp only [Option.some.injEq, Prod.mk.injEq] at h
    obtain ⟨hg, hr2⟩ := h
    obtain ⟨hm1, ip, fp, hmfp, hip, hfp, hne⟩ :=
      matchMantissa_sound (m := m.1) (r := m.2) (by rw [heq])
    have hs := matchSign_split cs
    have he := matchExp_sound m.2
    constructor
    · refine ⟨(matchSign cs).1, ip, fp, (matchExp m.2).1, hs.1, hip, hfp, he.1, hne, ?_⟩
      rw [← hg, hmfp]
      simp [List.append_assoc]
    · rw [← hg, ← hr2]
      calc cs = (matchSign cs).1 ++ (matchSign cs).2 := hs.2
        _ = (matchSign cs).1 ++ (m.1 ++ m.2) := by rw [hm1]
        _ = (matchSign cs).1 ++ (m.1 ++ ((matchExp m.2).1 ++ (matchExp m.2).2)) := by
              rw [← he.2]
        _ = ((matchSign cs).1 ++ (m.1 ++ (matchExp m.2).1)) ++ (matchExp m.2).2 := by
              simp [List.append_assoc]

lemma matchNumber_complete {sg ip fp ex : List Char} (r : List Char)
    (hsg : IsSignOpt sg) (hip : AllDigits ip) (hfp : IsFracOpt fp) (hex : IsExpOpt ex)
    (hne : ip ≠ [] ∨ fp ≠ [])
    (hr : ∀ c, r.head? = some c → isJsWhitespace c = true) :
    matchNumber (sg ++ (ip ++ (fp ++ (ex ++ r)))) = some (sg ++ (ip ++ (fp ++ ex)), r) := by
  have hmhead : ∀ c, (ip ++ (fp ++ (ex ++ r))).head? = some c → c ≠ '+' ∧ c ≠ '-' := by
    intro c hc
    cases ip with
    | cons d t =>
      simp only [List.cons_append, List.head?_cons, Option.some.injEq] at hc
      subst hc
      have := digit_char_facts (hip d (by simp))
      exact ⟨this.2.2.2.2.1, this.2.2.2.2.2⟩
    | nil =>
      rcases hfp with h2 | ⟨ds, hds, hdsd, h2⟩
      · subst h2
        rcases hne with h3 | h3
        · exact absurd rfl h3
        · exact absurd rfl h3
      · subst h2
        simp only [List.nil_append, List.cons_append, List.head?_cons,
          Option.some.injEq] at hc
        subst hc; exact ⟨by decide, by decide⟩
  have hsign : matchSign (sg ++ (ip ++ (fp ++ (ex ++ r)))) = (sg, ip ++ (fp ++ (ex ++ r))) :=
    matchSign_complete hsg _ hmhead
  have hexr : ∀ c, (ex ++ r).head? = some c → c.isDigit = false ∧ c ≠ '.' := by
    intro c hc
    rcases hex with h2 | ⟨e, sg2, ds, he, hsg2, hds, hdsd, h2⟩
    · subst h2
      have := ws_char_facts (hr c hc)
      exact ⟨this.1, this.2.1⟩
    · subst h2
      simp only [List.cons_append, List.head?_cons, Option.some.injEq] at hc
      subst hc
      rcases he with h3 | h3 <;> subst h3 <;> exact ⟨by decide, by decide⟩
  have hmant : matchMantissa (ip ++ (fp ++ (ex ++ r))) = some (ip ++ fp, ex ++ r) := by
    have := matchMantissa_complete (ex ++ r) hip hfp hne hexr
    simpa [List.append_assoc] using this
  have hexp : matchExp (ex ++ r) = (ex, r) := by
    rcases hex with h2 | ⟨e, sg2, ds, he, hsg2, hds, hdsd, h2⟩
    · subst h2
      simp only [List.nil_append]
      refine matchExp_complete_nil r fun c hc => ?_
      have := ws_char_facts (hr c hc)
      exact ⟨this.2.2.1, this.2.2.2.1⟩
    · subst h2
      exact matchExp_complete_cons e sg2 ds r he hsg2 hds hdsd
        fun c hc => (ws_char_facts (hr c hc)).1
  simp only [matchNumber, hsign, hmant, hexp]
  simp [List.append_assoc]

lemma IsNumberStr_head_not_ws {n : List Char} (h : IsNumberStr n) (rest : List Char) :
    ∀ c, (n ++ rest).head? = some c → isJsWhitespace c = false := by
  obtain ⟨sg, ip, fp, ex, hsg, hip, hfp, hex, hne, rfl⟩ := h
  intro c hc
  rcases hsg with h1 | h1 | h1 <;> subst h1
  · simp only [List.nil_append] at hc
    cases ip with
    | cons d t =>
      simp only [List.cons_append, List.head?_cons, Option.some.injEq] at hc
      subst hc
      exact (digit_char_facts (hip d (by simp))).1
    | nil =>
      rcases hfp with h2 | ⟨ds, hds, hdsd, h2⟩
      · subst h2
        rcases hne with h3 | h3
        · exact absurd rfl h3
        · exact absurd rfl h3
      · subst h2
        simp only [List.nil_append, List.cons_append, List.head?_cons,
          Option.some.injEq] at hc
        subst hc; decide
  · simp only [List.cons_append, List.head?_cons, Option.some.injEq] at hc
    subst hc; decide
  · simp only [List.cons_append, List.head?_cons, Option.some.injEq] at hc
    subst hc; decide

lemma matchCoordLine_sound {cs : List Char} {g : List Char × List Char}
    (h : matchCoordLine cs = some g) : IsCoordLine cs := by
  simp only [matchCoordLine] at h
  split at h
  case _ heq => cases h
  case _ g1 heq =>
    by_cases hw : g1.2.takeWhile isJsWhitespace = []
    · rw [if_pos hw] at h; cases h
    · rw [if_neg hw] at h
      split at h
      case _ heq2 => cases h
      case _ g2 heq2 =>
        by_cases hend : g2.2.dropWhile isJsWhitespace = []
        · obtain ⟨hn1, hsplit1⟩ :=
            matchNumber_sound (g := g1.1) (r := g1.2) (by rw [heq])
          obtain ⟨hn2, hsplit2⟩ :=
            matchNumber_sound (g := g2.1) (r := g2.2) (by rw [heq2])
          refine ⟨cs.takeWhile isJsWhitespace, g1.1, g1.2.takeWhile isJsWhitespace,
            g2.1, g2.2, all_takeWhile _, hn1, hw, all_takeWhile _, hn2,
            List.dropWhile_eq_nil_iff.mp hend, ?_⟩
          calc cs = cs.takeWhile isJsWhitespace ++ cs.dropWhile isJsWhitespace :=
                (List.takeWhile_append_dropWhile _ _).symm
            _ = cs.takeWhile isJsWhitespace ++ (g1.1 ++ g1.2) := by rw [hsplit1]
            _ = cs.takeWhile isJsWhitespace ++ (g1.1 ++
                  (g1.2.takeWhile isJsWhitespace ++ g1.2.dropWhile isJsWhitespace)) := by
                rw [List.takeWhile_append_dropWhile]
            _ = cs.takeWhile isJsWhitespace ++ (g1.1 ++
                  (g1.2.takeWhile isJsWhitespace ++ (g2.1 ++ g2.2))) := by rw [hsplit2]
            _ = cs.takeWhile isJsWhitespace ++ g1.1 ++ g1.2.takeWhile isJsWhitespace ++
                  g2.1 ++ g2.2 := by simp [List.append_assoc]
        · rw [if_neg hend] at h; cases h

lemma matchCoordLine_complete {w0 n1 w n2 w1 : List Char}
    (hw0 : AllWs w0) (hn1 : IsNumberStr n1) (hwne : w ≠ []) (hwws : AllWs w)
    (hn2 : IsNumberStr n2) (hw1 : AllWs w1) :
    (matchCoordLine (w0 ++ n1 ++ w ++ n2 ++ w1)).isSome = true := by
  have hdrop := takeWhile_all_append (p := isJsWhitespace) (n1 ++ (w ++ (n2 ++ w1))) hw0
    (IsNumberStr_head_not_ws hn1 _)
  have hwhead : ∀ c, (w ++ (n2 ++ w1)).head? = some c → isJsWhitespace c = true := by
    intro c hc
    cases w with
    | nil => exact absurd rfl hwne
    | cons d t =>
      simp only [List.cons_append, List.head?_cons, Option.some.injEq] at hc
      subst hc
      exact hwws d (by simp)
  obtain ⟨sg, ip, fp, ex, hsg, hip, hfp, hex, hne, hn1eq⟩ := hn1
  have hnum1 : matchNumber (n1 ++ (w ++ (n2 ++ w1))) = some (n1, w ++ (n2 ++ w1)) := by
    subst hn1eq
    have := matchNumber_complete (w ++ (n2 ++ w1)) hsg hip hfp hex hne hwhead
    simpa [List.append_assoc] using this
  have hmid := takeWhile_all_append (p := isJsWhitespace) (n2 ++ w1) hwws
    (IsNumberStr_head_not_ws hn2 _)
  have hw1head : ∀ c, w1.head? = some c → isJsWhitespace c = true := by
    intro c hc
    cases w1 with
    | nil => cases hc
    | cons d t =>
      simp only [List.head?_cons, Option.some.injEq] at hc
      subst hc
      exact hw1 d (by simp)
  obtain ⟨sg2, ip2, fp2, ex2, hsg2, hip2, hfp2, hex2, hne2, hn2eq⟩ := hn2
  have hnum2 : matchNumber (n2 ++ w1) = some (n2, w1) := by
    subst hn2eq
    have := matchNumber_complete w1 hsg2 hip2 hfp2 hex2 hne2 hw1head
    simpa [List.append_assoc] using this
  have harr : w0 ++ n1 ++ w ++ n2 ++ w1 = w0 ++ (n1 ++ (w ++ (n2 ++ w1))) := by
    simp [List.append_assoc]
  rw [harr]
  simp only [matchCoordLine, hdrop.2, hnum1, hmid.1, hmid.2, if_neg hwne, hnum2,
    dropWhile_all_eq_nil hw1]
  simp

/-- C9 (amended): a line is recognized as a coordinate line
(contributing a point) exactly when it is optional whitespace, then two
numbers separated by whitespace, then optional whitespace and nothing
else — where a number is an optional sign, an optional integer digit
run, an optional decimal fraction, and an optional exponent, with at
least one digit in integer-or-fraction position (so `.5` is accepted
even without integer digits, which the claim's wording excludes). -/
theorem lineToPoint_isSome_iff (l : String) :
    (lineToPoint l).isSome = true ↔ IsCoordLine l.data := by
  constructor
  · intro h
    obtain ⟨p, hp⟩ := Option.isSome_iff_exists.mp h
    simp only [lineToPoint, Option.map_eq_some'] at hp
    obtain ⟨g, hg, _⟩ := hp
    exact matchCoordLine_sound hg
  · intro h
    obtain ⟨w0, n1, w, n2, w1, hw0, hn1, hwne, hwws, hn2, hw1, heq⟩ := h
    simp only [lineToPoint]
    rw [heq]
    obtain ⟨g, hg⟩ := Option.isSome_iff_exists.mp
      (matchCoordLine_complete hw0 hn1 hwne hwws hn2 hw1)
    rw [hg]
    rfl

lemma scanLines_points (ls : List String) : ∀ (i : ℕ) (n : String) (hf : Bool)
    (acc : List Point),
    (scanLines ls i n hf acc).2 = acc ++ ls.filterMap lineToPoint := by
  induction ls with
  | nil => intro i n hf acc; simp [scanLines]
  | cons l t ih =>
    intro i n hf acc
    cases hl : lineToPoint l with
    | some p =>
      rw [scanLines, hl]
      rw [ih, List.filterMap_cons_some hl]
      simp
    | none =>
      rw [scanLines, hl]
      by_cases hi : i = 0 ∧ (fun hf => hf = false) hf
      · rw [if_pos hi, ih, List.filterMap_cons_none hl]
      · rw [if_neg hi, ih, List.filterMap_cons_none hl]

lemma scanLines_name_of_ne (ls : List String) : ∀ (i : ℕ) (n : String) (hf : Bool)
    (acc : List Point), i ≠ 0 → (scanLines ls i n hf acc).1 = n := by
  induction ls with
  | nil => intro i n hf acc _; rfl
  | cons l t ih =>
    intro i n hf acc hi
    cases hl : lineToPoint l with
    | some p =>
      rw [scanLines, hl]
      exact ih _ _ _ _ (by omega)
    | none =>
      rw [scanLines, hl, if_neg (by tauto)]
      exact ih _ _ _ _ (by omega)

lemma scanLines_name_zero (ls : List String) (n : String) (acc : List Point) :
    (scanLines ls 0 n false acc).1 =
      (match ls with
        | [] => n
        | l :: _ => if (lineToPoint l).isSome then n else l) := by
  cases ls with
  | nil => rfl
  | cons l t =>
    cases hl : lineToPoint l with
    | some p =>
      rw [scanLines, hl, scanLines_name_of_ne t 1 n false _ (by omega)]
      simp [hl]
    | none =>
      rw [scanLines, hl, if_pos ⟨rfl, rfl⟩, scanLines_name_of_ne t 1 l true _ (by omega)]
      simp [hl]

lemma foldl_append_concat (f : Point → String) : ∀ (pts : List Point) (s : String),
    pts.foldl (fun o p => o ++ f p) s = s ++ concatStrs (pts.map f) := by
  intro pts
  induction pts with
  | nil => intro s; simp [concatStrs]
  | cons p t ih =>
    intro s
    show t.foldl (fun o p => o ++ f p) (s ++ f p) = _
    rw [ih]
    show (s ++ f p) ++ concatStrs (t.map f) = s ++ (f p ++ concatStrs (t.map f))
    rw [String.append_assoc]

lemma foldl_min_le : ∀ (xs : List ℚ) (a b : ℚ), b ≤ a → xs.foldl min b ≤ a := by
  intro xs
  induction xs with
  | nil => intro a b h; exact h
  | cons x t ih =>
    intro a b h
    exact ih a (min b x) (le_trans (min_le_left b x) h)

lemma le_foldl_max : ∀ (xs : List ℚ) (a b : ℚ), a ≤ b → a ≤ xs.foldl max b := by
  intro xs
  induction xs with
  | nil => intro a b h; exact h
  | cons x t ih =>
    intro a b h
    exact ih a (max b x) (le_trans h (le_max_left b x))

lemma listMin_le_listMax {l : List ℚ} (h : l ≠ []) : listMin l ≤ listMax l := by
  cases l with
  | nil => exact absurd rfl h
  | cons x t =>
    exact le_trans (foldl_min_le t x x le_rfl) (le_foldl_max t x x le_rfl)

lemma scaleLinear_left (dom rng : ℚ × ℚ) (h : dom.2 - dom.1 ≠ 0) :
    scaleLinear dom rng dom.1 = rng.1 := by
  simp [scaleLinear, h]

lemma scaleLinear_right (dom rng : ℚ × ℚ) (h : dom.2 - dom.1 ≠ 0) :
    scaleLinear dom rng dom.2 = rng.2 := by
  rw [scaleLinear, if_neg h, div_self h]
  ring

lemma parseDatFile_eq (content fileName : String) :
    parseDatFile content fileName =
      if (recognizedPoints content).length < 3 then
        Except.error "Invalid .dat file: Not enough coordinate points found."
      else
        Except.ok
          ⟨(scanLines (splitLines content) 0 (replaceDatOnce fileName) false []).1,
           (recognizedPoints content).map fun p =>
             ⟨(p.x - listMin ((recognizedPoints content).map Point.x)) /
                (listMax ((recognizedPoints content).map Point.x) -
                  listMin ((recognizedPoints content).map Point.x)),
              p.y / (listMax ((recognizedPoints content).map Point.x) -
                  listMin ((recognizedPoints content).map Point.x))⟩,
           (listMax ((recognizedPoints content).map Point.y) -
              listMin ((recognizedPoints content).map Point.y)) /
             (listMax ((recognizedPoints content).map Point.x) -
               listMin ((recognizedPoints content).map Point.x))⟩ := by
  have hpts : (scanLines (splitLines content) 0 (replaceDatOnce fileName) false []).2 =
      recognizedPoints content := by
    rw [scanLines_points]
    rfl
  simp only [parseDatFile, hpts]

/-- C1 counterexample: an input whose three recognized points all share
x = 0, so the x-span is zero, yet `parseDatFile` succeeds — it performs
no degenerate-geometry check and never raises
`FormatError("degenerate geometry: zero chord span")`. -/
theorem parseDatFile_zero_span_cex :
    (recognizedPoints "0 0\n0 1\n0 2").length = 3 ∧
    listMax ((recognizedPoints "0 0\n0 1\n0 2").map Point.x) -
      listMin ((recognizedPoints "0 0\n0 1\n0 2").map Point.x) = 0 ∧
    (parseDatFile "0 0\n0 1\n0 2" "a.dat").toOption.isSome = true :=
  ⟨by with_unfolding_all decide, by with_unfolding_all decide,
    by with_unfolding_all decide⟩

/-- C1 (amended): whenever at least 3 coordinate lines are recognized,
`parseDatFile` succeeds — even when the x-span of the recognized points
is zero, in which case the implementation simply divides by the zero
span instead of failing. -/
theorem parseDatFile_no_span_check (content fileName : String)
    (h3 : 3 ≤ (recognizedPoints content).length) :
    (parseDatFile content fileName).toOption.isSome = true := by
  rw [parseDatFile_eq, if_neg (by omega)]
  rfl

/-- C1 witness: the amended theorem applied to a concrete listing. -/
theorem parseDatFile_no_span_check_witness :
    (parseDatFile "0 0\n1 0\n2 0" "b.dat").toOption.isSome = true :=
  parseDatFile_no_span_check "0 0\n1 0\n2 0" "b.dat" (by with_unfolding_all decide)

/-- C2: with at least 3 recognized points and a nonzero x-span
`rawChord = maxX - minX`, `parseDatFile` returns the points
`((x - minX) / rawChord, y / rawChord)` in encounter order, and
`normalizedThickness = (maxY - minY) / rawChord`. -/
theorem parseDatFile_normalizes (content fileName : String)
    (h3 : 3 ≤ (recognizedPoints content).length)
    (_hspan : listMax ((recognizedPoints content).map Point.x) -
      listMin ((recognizedPoints content).map Point.x) ≠ 0) :
    (parseDatFile content fileName).toOption.map AirfoilData.points =
      some ((recognizedPoints content).map fun p =>
        ⟨(p.x - listMin ((recognizedPoints content).map Point.x)) /
            (listMax ((recognizedPoints content).map Point.x) -
              listMin ((recognizedPoints content).map Point.x)),
          p.y / (listMax ((recognizedPoints content).map Point.x) -
              listMin ((recognizedPoints content).map Point.x))⟩) ∧
    (parseDatFile content fileName).toOption.map AirfoilData.originalThickness =
      some ((listMax ((recognizedPoints content).map Point.y) -
          listMin ((recognizedPoints content).map Point.y)) /
        (listMax ((recognizedPoints content).map Point.x) -
          listMin ((recognizedPoints content).map Point.x))) := by
  rw [parseDatFile_eq, if_neg (by omega)]
  exact ⟨rfl, rfl⟩

/-- C2 witness: on the listing with points (0,0), (0.5,0.05), (1,0),
(0.5,-0.05) the normalized thickness is 0.1. -/
theorem parseDatFile_normalizes_witness :
    (parseDatFile "0 0\n0.5 0.05\n1 0\n0.5 -0.05" "foo.dat").toOption.map
      AirfoilData.originalThickness = some (1/10) := by
  have h := (parseDatFile_normalizes "0 0\n0.5 0.05\n1 0\n0.5 -0.05" "foo.dat"
    (by with_unfolding_all decide) (by with_unfolding_all decide)).2
  rw [h]
  with_unfolding_all decide

/-- C10 counterexample: when the first line already matches the
coordinate pattern, the name falls back to `sourceName` with the first
occurrence of the substring `.dat` removed — a `.txt` extension is NOT
stripped, contradicting the claim that the extension is stripped. -/
theorem parseDatFile_name_cex :
    (parseDatFile "0 0\n1 0\n0.5 0.1" "airfoil.txt").toOption.map AirfoilData.name =
      some "airfoil.txt" ∧ ("airfoil.txt" : String) ≠ "airfoil" :=
  ⟨by with_unfolding_all decide, by decide⟩

/-- C10 (amended): on a successful parse the name is the first trimmed
non-empty line when that line does not match the coordinate pattern, and
otherwise `sourceName` with the first occurrence of the substring `.dat`
removed (not extension-stripping); no later non-matching line ever
changes the name. -/
theorem parseDatFile_name_rule (content fileName : String)
    (h3 : 3 ≤ (recognizedPoints content).length) :
    (parseDatFile content fileName).toOption.map AirfoilData.name =
      some (match splitLines content with
        | [] => replaceDatOnce fileName
        | l :: _ => if (lineToPoint l).isSome then replaceDatOnce fileName else l) := by
  rw [parseDatFile_eq, if_neg (by omega)]
  have := scanLines_name_zero (splitLines content) (replaceDatOnce fileName) []
  simp only [Except.toOption, Option.map_some']
  rw [this]

/-- C10 witness: a listing with a free-text first line takes that line
as the name. -/
theorem parseDatFile_name_rule_witness :
    (parseDatFile "NACA 2412\n0 0\n1 0\n0.5 0.1" "x.dat").toOption.map AirfoilData.name =
      some "NACA 2412" := by
  have h := parseDatFile_name_rule "NACA 2412\n0 0\n1 0\n0.5 0.1" "x.dat"
    (by with_unfolding_all decide)
  rw [h]
  with_unfolding_all decide

/-- C3: for positive chord and thickness percent, `transformPoints` maps
each normalized point (nx, ny) in order to (nx * chord, ny * yScale *
chord) with yScale = (thicknessPercent/100) / normalizedThickness when
the normalized thickness is positive and yScale = 1 when it is zero. -/
theorem transformPoints_spec (data : AirfoilData) (chord tp : ℚ)
    (_hc : 0 < chord) (_ht : 0 < tp) :
    (0 < data.originalThickness →
      transformPoints data chord tp = data.points.map fun p =>
        ⟨p.x * chord, p.y * ((tp / 100) / data.originalThickness) * chord⟩) ∧
    (data.originalThickness = 0 →
      transformPoints data chord tp = data.points.map fun p =>
        ⟨p.x * chord, p.y * 1 * chord⟩) := by
  constructor
  · intro h
    simp only [transformPoints, if_pos h]
  · intro h
    simp only [transformPoints, h]
    rw [if_neg (lt_irrefl 0)]

/-- C3 witness: chord 200 and thickness 10% on data of normalized
thickness 0.1 give yScale = 1, so y = 0.05 maps to 10 = 0.05 × 200. -/
theorem transformPoints_spec_witness :
    transformPoints ⟨"w", [⟨1, 1/20⟩], 1/10⟩ 200 10 = [⟨200, 10⟩] := by
  have h := (transformPoints_spec ⟨"w", [⟨1, 1/20⟩], 1/10⟩ 200 10
    (by norm_num) (by norm_num)).1 (by norm_num)
  rw [h]
  with_unfolding_all decide

/-- C4 counterexample: with a negative chord, `transformPoints` does not
fail with `InvalidParameterError` — it performs no parameter validation
at all and simply returns the scaled points. -/
theorem transformPoints_no_validation_cex :
    transformPoints ⟨"a", [⟨1, 1⟩], 1/10⟩ (-1) 10 = [⟨-1, -1⟩] := by
  with_unfolding_all decide

/-- C4 (amended): `transformPoints` never fails for any chord and
thickness percent, positive or not: it always returns the mapped point
list, one output point per input point. -/
theorem transformPoints_total (data : AirfoilData) (chord tp : ℚ) :
    (0 < data.originalThickness →
      transformPoints data chord tp = data.points.map fun p =>
        ⟨p.x * chord, p.y * ((tp / 100) / data.originalThickness) * chord⟩) ∧
    (¬ 0 < data.originalThickness →
      transformPoints data chord tp = data.points.map fun p =>
        ⟨p.x * chord, p.y * 1 * chord⟩) ∧
    (transformPoints data chord tp).length = data.points.length := by
  refine ⟨fun h => ?_, fun h => ?_, ?_⟩
  · simp only [transformPoints, if_pos h]
  · simp only [transformPoints, if_neg h]
  · simp [transformPoints]

/-- C4 witness: the amended theorem applied at non-positive thickness
data and arbitrary parameters. -/
theorem transformPoints_total_witness :
    transformPoints ⟨"a", [⟨1, 1⟩], 0⟩ 2 3 = [⟨2, 2⟩] := by
  have h := (transformPoints_total ⟨"a", [⟨1, 1⟩], 0⟩ 2 3).2.1 (by norm_num)
  rw [h]
  with_unfolding_all decide

/-- C5: for a non-empty point sequence (and a viewport of positive
width), the render effect computes xPad = dataWidth × 0.1, a thin-shape
floor minHeight = dataWidth × 0.3, effectiveHeight = max(dataHeight,
minHeight), yPad = effectiveHeight × 0.5, the padded domains, and maps
xDomain linearly onto [0, width − 50 − 40] and yDomain onto
[height − 40 − 40, 0] (margins top 40, right 40, bottom 40, left 50),
the endpoints landing on the range ends whenever the x-span is
nonzero. -/
theorem project_spec (pts : List Point) (vp : ViewportSpec)
    (hne : pts ≠ []) (hw : 0 < vp.width) :
    project pts vp = Except.ok (some
      { xDomain := (listMin (pts.map Point.x) -
            (listMax (pts.map Point.x) - listMin (pts.map Point.x)) * (1/10),
          listMax (pts.map Point.x) +
            (listMax (pts.map Point.x) - listMin (pts.map Point.x)) * (1/10)),
        yDomain := (listMin (pts.map Point.y) -
            (max (listMax (pts.map Point.y) - listMin (pts.map Point.y))
              ((listMax (pts.map Point.x) - listMin (pts.map Point.x)) * (3/10))) * (1/2),
          listMax (pts.map Point.y) +
            (max (listMax (pts.map Point.y) - listMin (pts.map Point.y))
              ((listMax (pts.map Point.x) - listMin (pts.map Point.x)) * (3/10))) * (1/2)),
        xRange := (0, vp.width - 50 - 40),
        yRange := (vp.height - 40 - 40, 0) }) ∧
    (listMax (pts.map Point.x) - listMin (pts.map Point.x) ≠ 0 →
      ∀ r, project pts vp = Except.ok (some r) →
        scaleLinear r.xDomain r.xRange r.xDomain.1 = 0 ∧
        scaleLinear r.xDomain r.xRange r.xDomain.2 = vp.width - 50 - 40 ∧
        scaleLinear r.yDomain r.yRange r.yDomain.1 = vp.height - 40 - 40 ∧
        scaleLinear r.yDomain r.yRange r.yDomain.2 = 0) := by
  have hguard : ¬(pts.length = 0 ∨ vp.width = 0) := by
    rintro (h | h)
    · exact hne (List.length_eq_zero.mp h)
    · exact hw.ne' h
  have hmain : project pts vp = Except.ok (some
      { xDomain := (listMin (pts.map Point.x) -
            (listMax (pts.map Point.x) - listMin (pts.map Point.x)) * (1/10),
          listMax (pts.map Point.x) +
            (listMax (pts.map Point.x) - listMin (pts.map Point.x)) * (1/10)),
        yDomain := (listMin (pts.map Point.y) -
            (max (listMax (pts.map Point.y) - listMin (pts.map Point.y))
              ((listMax (pts.map Point.x) - listMin (pts.map Point.x)) * (3/10))) * (1/2),
          listMax (pts.map Point.y) +
            (max (listMax (pts.map Point.y) - listMin (pts.map Point.y))
              ((listMax (pts.map Point.x) - listMin (pts.map Point.x)) * (3/10))) * (1/2)),
        xRange := (0, vp.width - 50 - 40),
        yRange := (vp.height - 40 - 40, 0) }) := by
    simp only [project, if_neg hguard]
  refine ⟨hmain, fun hdw r hr => ?_⟩
  have hr' := hmain.symm.trans hr
  simp only [Except.ok.injEq, Option.some.injEq] at hr'
  subst hr'
  have hxne : pts.map Point.x ≠ [] := by
    simpa using hne
  have hyne : pts.map Point.y ≠ [] := by
    simpa using hne
  have hx := listMin_le_listMax hxne
  have hy := listMin_le_listMax hyne
  have hdwpos : 0 < listMax (pts.map Point.x) - listMin (pts.map Point.x) := by
    rcases lt_or_eq_of_le (by linarith : (0:ℚ) ≤
      listMax (pts.map Point.x) - listMin (pts.map Point.x)) with h | h
    · exact h
    · exact absurd h.symm hdw
  have hxw : ((listMax (pts.map Point.x) +
        (listMax (pts.map Point.x) - listMin (pts.map Point.x)) * (1/10)) -
      (listMin (pts.map Point.x) -
        (listMax (pts.map Point.x) - listMin (pts.map Point.x)) * (1/10))) ≠ 0 := by
    intro hcontra
    nlinarith
  have hyamp : (listMax (pts.map Point.x) - listMin (pts.map Point.x)) * (3/10) ≤
      max (listMax (pts.map Point.y) - listMin (pts.map Point.y))
        ((listMax (pts.map Point.x) - listMin (pts.map Point.x)) * (3/10)) :=
    le_max_right _ _
  have hyw : ((listMax (pts.map Point.y) +
        (max (listMax (pts.map Point.y) - listMin (pts.map Point.y))
          ((listMax (pts.map Point.x) - listMin (pts.map Point.x)) * (3/10))) * (1/2)) -
      (listMin (pts.map Point.y) -
        (max (listMax (pts.map Point.y) - listMin (pts.map Point.y))
          ((listMax (pts.map Point.x) - listMin (pts.map Point.x)) * (3/10))) * (1/2))) ≠ 0 := by
    intro hcontra
    nlinarith
  exact ⟨scaleLinear_left _ _ hxw, scaleLinear_right _ _ hxw,
    scaleLinear_left _ _ hyw, scaleLinear_right _ _ hyw⟩

/-- C5 witness: points spanning x ∈ [0,100], y ∈ [-5,5] in an 800×400
viewport give xDomain = [-10,110], yDomain = [-20,20] (yPad = 15 from
the thin-shape guard), ranges [0,710] and [320,0]. -/
theorem project_spec_witness :
    project [⟨0, 0⟩, ⟨100, -5⟩, ⟨50, 5⟩] ⟨800, 400⟩ =
      Except.ok (some ⟨(-10, 110), (-20, 20), (0, 710), (320, 0)⟩) := by
  have h := (project_spec [⟨0, 0⟩, ⟨100, -5⟩, ⟨50, 5⟩] ⟨800, 400⟩
    (List.cons_ne_nil _ _) (by norm_num)).1
  rw [h]
  with_unfolding_all rfl

/-- C6 counterexample: on the empty point sequence the render effect
returns early without raising anything — the result is a silently
skipped projection (`Except.ok none`), not an `EmptyGeometryError`. -/
theorem project_empty_cex : project [] ⟨800, 400⟩ = Except.ok none := by
  with_unfolding_all rfl

/-- C6 (amended): for empty input the projection is silently skipped
(no error); for non-empty input with nonzero viewport width a projection
is computed; the effect never throws on any input. -/
theorem project_empty_skips (pts : List Point) (vp : ViewportSpec) :
    (pts = [] → project pts vp = Except.ok none) ∧
    (pts ≠ [] → vp.width ≠ 0 → ((project pts vp).toOption.join).isSome = true) ∧
    ((project pts vp).toOption).isSome = true := by
  refine ⟨fun h => ?_, fun h1 h2 => ?_, ?_⟩
  · subst h
    simp [project]
  · have hguard : ¬(pts.length = 0 ∨ vp.width = 0) := by
      rintro (h | h)
      · exact h1 (List.length_eq_zero.mp h)
      · exact h2 h
    simp only [project, if_neg hguard]
    rfl
  · by_cases hguard : pts.length = 0 ∨ vp.width = 0
    · simp only [project, if_pos hguard]
      rfl
    · simp only [project, if_neg hguard]
      rfl

/-- C6 witness: the amended theorem applied to the empty sequence. -/
theorem project_empty_skips_witness : project [] ⟨640, 480⟩ = Except.ok none :=
  (project_empty_skips [] ⟨640, 480⟩).1 rfl

/-- C7: for every point sequence, including the empty one, `generateCSV`
is the header line `X,Y,Z` followed by one line per point in input
order — x and y fixed to 6 fractional digits, z the constant
`0.000000`, comma-separated, newline-terminated — with no synthesized
trailing point. -/
theorem generateCSV_spec (pts : List Point) :
    generateCSV pts = "X,Y,Z\n" ++
      concatStrs (pts.map fun p =>
        toFixed6 p.x ++ "," ++ toFixed6 p.y ++ ",0.000000\n") :=
  foldl_append_concat _ pts _

/-- C8 counterexample: the implemented writer emits the z group code
value as the literal `0.0`, not formatted to 6 fractional digits as the
claim states; the two writers differ already on a single point. -/
theorem generateDXF_z_cex : generateDXF [⟨1, 2⟩] ≠ generateDXFClaim [⟨1, 2⟩] := by
  with_unfolding_all decide

/-- C8 (amended): `generateDXF` emits exactly SECTION/ENTITIES, a single
POLYLINE on layer 0 with the connected-polyline flag 66 = 1, one VERTEX
per point in input order with 10 = x and 20 = y formatted to 6
fractional digits and 30 the literal `0.0`, then SEQEND, ENDSEC, EOF;
no point is added or removed. -/
theorem generateDXF_spec (pts : List Point) :
    generateDXF pts = "0\nSECTION\n2\nENTITIES\n" ++ "0\nPOLYLINE\n8\n0\n66\n1\n" ++
      concatStrs (pts.map fun p =>
        "0\nVERTEX\n8\n0\n" ++ ("10\n" ++ toFixed6 p.x ++ "\n") ++
          ("20\n" ++ toFixed6 p.y ++ "\n") ++ "30\n0.0\n") ++
      ("0\nSEQEND\n" ++ "0\nENDSEC\n" ++ "0\nEOF\n") := by
  simp only [generateDXF]
  rw [foldl_append_concat]
  simp [String.append_assoc]

/-- C9 counterexample: the line `.5 .5` is recognized by the
implementation's `coordinateRegex` (and so contributes a point), but it
is not of the claim's shape `sign? digits fraction? exponent?` twice —
its numbers have no integer digit run. -/
theorem coordLine_claim_cex :
    (lineToPoint ".5 .5").isSome = true ∧ ¬IsCoordLineClaim ".5 .5".data := by
  constructor
  · with_unfolding_all decide
  · rintro ⟨n1, w, n2, hn1, hwne, hw, hn2, heq⟩
    obtain ⟨sg, ip, fp, ex, hsg, hipne, hip, hfp, hex, hn1eq⟩ := hn1
    subst hn1eq
    have hs : ".5 .5".data = '.' :: "5 .5".data := rfl
    rw [hs] at heq
    rcases hsg with h1 | h1 | h1 <;> subst h1
    · cases ip with
      | nil => exact hipne rfl
      | cons d t =>
        simp only [List.nil_append, List.cons_append, List.append_assoc,
          List.cons.injEq] at heq
        have hd := hip d (by simp)
        rw [← heq.1] at hd
        exact absurd hd (by decide)
    · simp only [List.cons_append, List.cons.injEq] at heq
      exact absurd heq.1 (by decide)
    · simp only [List.cons_append, List.cons.injEq] at heq
      exact absurd heq.1 (by decide)
